import Mathlib

/-!
Shallow embedding of the core pure logic of the `ytdl_cli` repository
(`ytdl_cli/utils.py`, `ytdl_cli/state.py` and the pure, per-line parts of
`ytdl_cli/downloader.py`), together with theorems settling the frozen
claims about it.

Text is modelled as `List Char` (the model is faithful for ASCII input;
Python's Unicode-aware `str.strip`/`str.lower`/`str.upper` and non-ASCII
digits are modelled by their ASCII behaviour).  Python exceptions are
modelled with `Except`; `raise X from e` chains are modelled by an error
value carrying both the re-raised error and its cause.
-/

/-- Character list standing for a Python `str`. -/
abbrev Str := List Char

/-- ASCII whitespace, the fragment of Python's `str.isspace` that the
model covers. -/
def isPyWs (c : Char) : Bool :=
  c = ' ' || c = '\t' || c = '\n' || c = '\r' || c = '\x0b' || c = '\x0c'

/-- Python `str.strip()` (ASCII whitespace). -/
def pyStrip (s : Str) : Str :=
  ((s.dropWhile isPyWs).reverse.dropWhile isPyWs).reverse

/-- Python `str.lower()` (ASCII). -/
def pyLower (s : Str) : Str := s.map Char.toLower

/-- Python `str.upper()` (ASCII). -/
def pyUpper (s : Str) : Str := s.map Char.toUpper

/-- Python `str.split(sep)` for a one-character separator: keeps empty
pieces, `"".split(c) == [""]`.  Auxiliary accumulator form. -/
def splitOnCharAux (sep : Char) : Str → Str → List Str
  | [], acc => [acc.reverse]
  | c :: rest, acc =>
    if c = sep then acc.reverse :: splitOnCharAux sep rest []
    else splitOnCharAux sep rest (c :: acc)

/-- Python `str.split(sep)` for a one-character separator. -/
def splitOnChar (sep : Char) (s : Str) : List Str := splitOnCharAux sep s []

/-- Python `str.split()` with no argument: splits on whitespace runs and
drops empty pieces.  Auxiliary accumulator form. -/
def pyWordsAux : Str → Str → List Str
  | [], acc => if acc.isEmpty then [] else [acc.reverse]
  | c :: rest, acc =>
    if isPyWs c then
      if acc.isEmpty then pyWordsAux rest []
      else acc.reverse :: pyWordsAux rest []
    else pyWordsAux rest (c :: acc)

/-- Python `str.split()` with no argument. -/
def pyWords (s : Str) : List Str := pyWordsAux s []

/-- Boolean test that `s` is a prefix of `l`. -/
def startsWith : Str → Str → Bool
  | [], _ => true
  | _ :: _, [] => false
  | c :: s, d :: l => c = d && startsWith s l

/-- Index of the first occurrence of `sep` in `l`, if any; the model of
Python's substring search underlying `in` and `str.split(sep)`. -/
def findSub (sep : Str) : Str → Option Nat
  | [] => if sep.isEmpty then some 0 else none
  | c :: r => if startsWith sep (c :: r) then some 0 else (findSub sep r).map (· + 1)

/-- Python `sep in s` (substring containment). -/
def containsSub (sep s : Str) : Bool := (findSub sep s).isSome

/-- Python `str.split(sep)` for a multi-character separator, fuel-indexed
so that the recursion is structural; the fuel is always at least the
length of the remaining input, so the `0` case is never reached for a
nonempty separator. -/
def splitOnStrFuel (sep : Str) : Nat → Str → Str → List Str
  | 0, l, acc => [acc.reverse ++ l]
  | fuel + 1, l, acc =>
    match l with
    | [] => [acc.reverse]
    | c :: r =>
      if startsWith sep (c :: r) then
        acc.reverse :: splitOnStrFuel sep fuel ((c :: r).drop sep.length) []
      else
        splitOnStrFuel sep fuel r (c :: acc)

/-- Python `str.split(sep)` for a multi-character (nonempty) separator. -/
def splitOnStr (sep l : Str) : List Str := splitOnStrFuel sep l.length l []

/-- Python `lst[-n:]`. -/
def takeLast (n : Nat) (l : List α) : List α := l.drop (l.length - n)

/-! ### Python `int()` and `float()` on strings

`int(s)` accepts optional surrounding whitespace, an optional sign and a
nonempty digit run with single underscores strictly between digits.
`float(s)` additionally accepts a fractional part and an exponent; the
`inf`/`infinity`/`nan` forms are not modelled (treated as unparseable),
and values are represented exactly as rationals. -/

/-- Consume the maximal leading digit run (single underscores allowed
strictly between digits); returns the accumulated value, the number of
digits consumed and the rest of the input. -/
def takeUDigits : Str → Nat → Nat → (Nat × Nat) × Str
  | '_' :: c :: rest, acc, n =>
    if n ≠ 0 ∧ c.isDigit then takeUDigits rest (acc * 10 + (c.toNat - 48)) (n + 1)
    else ((acc, n), '_' :: c :: rest)
  | c :: rest, acc, n =>
    if c.isDigit then takeUDigits rest (acc * 10 + (c.toNat - 48)) (n + 1)
    else ((acc, n), c :: rest)
  | [], acc, n => ((acc, n), [])

/-- Parse a complete unsigned digit run (Python digit grammar); `none`
when empty, containing a stray character, or ill-formed underscores. -/
def digitsToNat (r : Str) : Option Nat :=
  match takeUDigits r 0 0 with
  | ((v, n), rest) => if n ≠ 0 ∧ rest = [] then some v else none

/-- Python `int(s)` for a string argument. -/
def pyInt (s : Str) : Option Int :=
  match pyStrip s with
  | '+' :: r => (digitsToNat r).map Int.ofNat
  | '-' :: r => (digitsToNat r).map (fun v => -(v : Int))
  | r => (digitsToNat r).map Int.ofNat

/-- Mantissa value `ip.fp` with `nf` fractional digits. -/
def pyMantissa (ip fp nf : Nat) : ℚ := (ip : ℚ) + (fp : ℚ) / (10 : ℚ) ^ nf

/-- Exponent part of a float literal: optional sign and a digit run. -/
def pyExp (r : Str) : Option Int :=
  match r with
  | '+' :: r2 => (digitsToNat r2).map Int.ofNat
  | '-' :: r2 => (digitsToNat r2).map (fun v => -(v : Int))
  | r2 => (digitsToNat r2).map Int.ofNat

/-- Unsigned part of Python's `float()` grammar. -/
def pyFloatMagnitude (u : Str) : Option ℚ :=
  match takeUDigits u 0 0 with
  | ((ip, ni), r1) =>
    match r1 with
    | '.' :: r2 =>
      match takeUDigits r2 0 0 with
      | ((fp, nf), r3) =>
        if ni = 0 ∧ nf = 0 then none
        else
          match r3 with
          | [] => some (pyMantissa ip fp nf)
          | e :: r4 =>
            if e = 'e' ∨ e = 'E' then
              (pyExp r4).map (fun ex => pyMantissa ip fp nf * (10 : ℚ) ^ ex)
            else none
    | [] => if ni = 0 then none else some (ip : ℚ)
    | e :: r4 =>
      if (e = 'e' ∨ e = 'E') ∧ ni ≠ 0 then
        (pyExp r4).map (fun ex => (ip : ℚ) * (10 : ℚ) ^ ex)
      else none

/-- Python `float(s)` for a string argument (finite decimal forms). -/
def pyFloat (s : Str) : Option ℚ :=
  match pyStrip s with
  | '+' :: r => pyFloatMagnitude r
  | '-' :: r => (pyFloatMagnitude r).map (fun q => -q)
  | r => pyFloatMagnitude r

/-- Decidable equality for `Except`, needed to evaluate parser results
with `decide`. -/
instance {e a : Type} [DecidableEq e] [DecidableEq a] : DecidableEq (Except e a) := fun x y =>
  match x, y with
  | .ok u, .ok v =>
    if h : u = v then .isTrue (by rw [h]) else .isFalse (by simp [h])
  | .error u, .error v =>
    if h : u = v then .isTrue (by rw [h]) else .isFalse (by simp [h])
  | .ok _, .error _ => .isFalse (by simp)
  | .error _, .ok _ => .isFalse (by simp)

/-! ### `ytdl_cli/utils.py` -/

/-- Cause of a wrapped `ValueError` in `parse_video_selection`; models the
`__cause__` attached by `raise ... from e`. -/
inductive IntErr where
  /-- The `ValueError("Invalid range: {part}")` raised by the bounds check. -/
  | invalidRange (part : Str)
  /-- The `ValueError("Index out of range: {idx}")` raised by the bounds check. -/
  | indexOutOfRange (idx : Int)
  /-- The `ValueError` raised by `int()` on a non-numeric literal, naming the token. -/
  | intLiteral (tok : Str)
  /-- The `ValueError` raised by unpacking `part.split('-')` into two names. -/
  | unpack
  deriving DecidableEq

/-- The `ValueError` finally raised by `parse_video_selection`, with its
cause. -/
inductive SelErr where
  /-- Error `ValueError("Invalid range format: {part}") from cause`. -/
  | invalidRangeFormat (part : Str) (cause : IntErr)
  /-- Error `ValueError("Invalid number: {part}") from cause`. -/
  | invalidNumber (part : Str) (cause : IntErr)
  deriving DecidableEq

/-- Python `range(si, ei + 1)` as a list of integers. -/
def intRangeList (si ei : Int) : List Int :=
  (List.range (ei + 1 - si).toNat).map (fun i : Nat => si + (i : Int))

/-- One iteration of the `for part in parts` loop of
`parse_video_selection`: validates a single comma-separated term and
returns the positions it contributes (a Python `range` list for a range
term, a singleton for a single index). -/
def partIndices (part0 : Str) (total : Nat) : Except SelErr (List Int) :=
  let part := pyStrip part0
  if '-' ∈ part then
    match splitOnChar '-' part with
    | [s, e] =>
      match pyInt (pyStrip s) with
      | none => .error (.invalidRangeFormat part (.intLiteral (pyStrip s)))
      | some startIdx =>
        match pyInt (pyStrip e) with
        | none => .error (.invalidRangeFormat part (.intLiteral (pyStrip e)))
        | some endIdx =>
          if startIdx < 1 ∨ endIdx > (total : Int) ∨ startIdx > endIdx then
            .error (.invalidRangeFormat part (.invalidRange part))
          else
            .ok (intRangeList startIdx endIdx)
    | _ => .error (.invalidRangeFormat part .unpack)
  else
    match pyInt part with
    | none => .error (.invalidNumber part (.intLiteral part))
    | some idx =>
      if idx < 1 ∨ idx > (total : Int) then
        .error (.invalidNumber part (.indexOutOfRange idx))
      else
        .ok [idx]

/-- Python `set.add`: the set is modelled as a duplicate-free list. -/
def pySetAdd (acc : List Int) (x : Int) : List Int :=
  if x ∈ acc then acc else acc ++ [x]

/-- Python `set.update` with an iterable of positions. -/
def pySetUpdate (acc : List Int) (xs : List Int) : List Int :=
  xs.foldl pySetAdd acc

/-- The `for part in parts` loop: accumulates positions into the set,
aborting with the first `ValueError`. -/
def parseParts (total : Nat) : List Str → List Int → Except SelErr (List Int)
  | [], acc => .ok acc
  | p :: ps, acc =>
    match partIndices p total with
    | .error e => .error e
    | .ok xs => parseParts total ps (pySetUpdate acc xs)

/-- Function `parse_video_selection(selection, total_videos)` from
`ytdl_cli/utils.py`: `sorted(list(indices))` is modelled by
`List.insertionSort`. -/
def parse_video_selection (selection : String) (total : Nat) : Except SelErr (List Int) :=
  let sel := pyLower (pyStrip selection.toList)
  if sel = "all".toList then
    .ok ((List.range total).map (fun i : Nat => (i : Int) + 1))
  else
    match parseParts total (splitOnChar ',' sel) [] with
    | .error e => .error e
    | .ok acc => .ok (List.insertionSort (· ≤ ·) acc)

/-- Height extraction of `build_format_string`:
`quality.replace('p', '').split()[0].strip()`, `none` when `split()` is
empty and the subscript raises `IndexError`. -/
def extract_height (quality : Str) : Option Str :=
  match pyWords (quality.filter (fun c => c ≠ 'p')) with
  | [] => none
  | w :: _ => some (pyStrip w)

/-- Body of the format-selector f-string for an extracted height. -/
def formatFromHeight (height : Str) : Str :=
  "bestvideo[height<=".toList ++ height ++ "][ext=mp4]+bestaudio[ext=m4a]/".toList
    ++ "bestvideo[height<=".toList ++ height ++ "]+bestaudio/".toList
    ++ "best[height<=".toList ++ height ++ "][ext=mp4]/".toList
    ++ "best[height<=".toList ++ height ++ "]/".toList
    ++ "best".toList

/-- Function `build_format_string(quality)` from `ytdl_cli/utils.py`. -/
def build_format_string (quality : Str) : Option Str :=
  (extract_height quality).map formatFromHeight

/-! ### `ytdl_cli/state.py` -/

/-- A JSON value as far as the configuration document is concerned. -/
inductive JVal where
  | str (s : String)
  | num (n : Int)
  | boolean (b : Bool)
  | null
  deriving DecidableEq

/-- The state of the backing configuration document on disk. -/
inductive Doc where
  /-- The file does not exist (`FileNotFoundError` on open). -/
  | missing
  /-- The file exists but is not valid JSON (`json.JSONDecodeError`). -/
  | corrupt
  /-- A valid JSON object with the given fields. -/
  | valid (entries : List (String × JVal))
  deriving DecidableEq

/-- Method `Config._read_config`: missing or corrupt documents read as `{}`. -/
def read_config : Doc → List (String × JVal)
  | .missing => []
  | .corrupt => []
  | .valid m => m

/-- Python `dict.get(k, dflt)`. -/
def dictGet (m : List (String × JVal)) (k : String) (dflt : JVal) : JVal :=
  match m.find? (fun kv => kv.1 = k) with
  | some kv => kv.2
  | none => dflt

/-- Python `d[k] = v` on a dict modelled as an association list. -/
def dictSet (k : String) (v : JVal) (m : List (String × JVal)) : List (String × JVal) :=
  if m.any (fun kv => kv.1 = k) then
    m.map (fun kv => if kv.1 = k then (k, v) else kv)
  else
    m ++ [(k, v)]

/-- The hard-coded default download directory
`Path.home() / "Downloads" / "YouTube"`, for an abstract home path. -/
def defaultDownloadDir (home : String) : String := home ++ "/Downloads/YouTube"

/-- Method `Config.get_last_quality`: a fresh read of the document. -/
def get_last_quality (d : Doc) : JVal :=
  dictGet (read_config d) "last_quality" (.str "720")

/-- Method `Config.set_last_quality`: read, mutate, rewrite whole document. -/
def set_last_quality (d : Doc) (quality : String) : Doc :=
  .valid (dictSet "last_quality" (.str quality) (read_config d))

/-- Method `Config.get_download_dir`: a fresh read of the document. -/
def get_download_dir (home : String) (d : Doc) : JVal :=
  dictGet (read_config d) "download_dir" (.str (defaultDownloadDir home))

/-! ### `ytdl_cli/downloader.py`: per-line progress scanning

Both download methods read the merged stdout/stderr stream line by line.
`download_single_video` retains every line in `all_output` and recognises
only progress lines; `download_playlist` retains nothing and recognises
destination, progress and completion lines, in that order. -/

/-- Marker `'[download] Destination:'` announcing a destination file. -/
def destMarker : Str := "[download] Destination:".toList

/-- Marker `'[download]'` of a progress line. -/
def dlMarker : Str := "[download]".toList

/-- Marker `'has already been downloaded'` of a completed item. -/
def alreadyMarker : Str := "has already been downloaded".toList

/-- Expression `line.split('%')[0].split()[-1]` as an `Option`: the last
whitespace-delimited field before the first percent sign; `none` models
the `IndexError` when there is no such field. -/
def percentToken (line : Str) : Option Str :=
  (pyWords ((splitOnStr ['%'] line).headD [])).getLast?

/-- Scanner state of the `download_playlist` loop: the description shown
for the current file and the completion percentage of the progress task. -/
structure PlScanState where
  currentFile : Str
  percent : ℚ
  deriving DecidableEq

/-- Expression `line.split('Destination:')[1].strip()`: the file path announced on a
destination line (the guard guarantees the second piece exists). -/
def announcedFile (line : Str) : Str :=
  pyStrip (((splitOnStr ("Destination:".toList) line).get? 1).getD [])

/-- Expression `Path(filename).name` for POSIX-style separators: the final
non-empty, non-`'.'` component of the path. -/
def pathName (filename : Str) : Str :=
  (((splitOnChar '/' filename).filter (fun p => ¬p.isEmpty ∧ p ≠ ['.'])).getLast?).getD []

/-- One iteration of the `for line in process.stdout` loop of
`Downloader.download_playlist` (lines 342-362): destination lines update
the shown name (truncated to 40 characters) and reset the percentage;
progress lines parse the percent token, ignoring parse failures;
completion lines force 100. -/
def plStep (line : Str) (st : PlScanState) : PlScanState :=
  if containsSub destMarker line then
    let name := pathName (announcedFile line)
    let name := if name.length > 40 then name.take 37 ++ "...".toList else name
    { currentFile := name, percent := 0 }
  else if containsSub dlMarker line && containsSub ['%'] line then
    match percentToken line with
    | none => st
    | some tok =>
      match pyFloat tok with
      | none => st
      | some p => { st with percent := p }
  else if containsSub alreadyMarker line || containsSub ("100%".toList) line then
    { st with percent := 100 }
  else
    st

/-- Scanner state of the `download_single_video` loop: every line is
retained in `all_output` for diagnostics, and progress lines update the
percentage. -/
structure SvScanState where
  allOutput : List Str
  percent : ℚ
  deriving DecidableEq

/-- One iteration of the `for line in process.stdout` loop of
`Downloader.download_single_video` (lines 229-240). -/
def svStep (st : SvScanState) (line : Str) : SvScanState :=
  let st := { st with allOutput := st.allOutput ++ [line] }
  if containsSub dlMarker line && containsSub ['%'] line then
    match percentToken line with
    | none => st
    | some tok =>
      match pyFloat tok with
      | none => st
      | some p => { st with percent := p }
  else
    st

/-- The whole scanning loop of `download_single_video` over a finished
output stream. -/
def svRun (lines : List Str) : SvScanState :=
  lines.foldl svStep { allOutput := [], percent := 0 }

/-- Error-line selection of `download_single_video` (lines 245-249): on a
non-zero exit status, lines matching `'ERROR' in l.upper() or 'error' in
l` are preferred, falling back to the last ten retained lines. -/
def selectErrorLines (allOutput : List Str) : List Str :=
  let errorLines := allOutput.filter
    (fun l => containsSub ("ERROR".toList) (pyUpper l) || containsSub ("error".toList) l)
  if errorLines.isEmpty then takeLast 10 allOutput else errorLines

/-- Failure display of `download_playlist` (lines 366-370): on a
non-zero exit status the playlist path prints only
`"Download failed with code "` followed by the return code (terminal
colour markup elided); the output stream is ignored — the playlist loop
retains no lines, which is why the parameter is unused. -/
def playlistFailureDisplay (allOutput : List Str) (returncode : Int) : List Str :=
  let _ := allOutput
  [("Download failed with code " ++ toString returncode).toList]

/-- Case-insensitive containment of `"error"`, written from the spec's
words ("lines containing case-insensitive `error`"): the uppercased line
contains `"ERROR"`. -/
def specErrorLines (allOutput : List Str) : List Str :=
  let m := allOutput.filter (fun l => containsSub ("ERROR".toList) (pyUpper l))
  if m.isEmpty then takeLast 10 allOutput else m

/-! ### Helper lemmas about the string primitives -/

theorem startsWith_iff (s : Str) : ∀ l : Str, startsWith s l = true ↔ ∃ t, l = s ++ t := by
  induction s with
  | nil => intro l; simp [startsWith]
  | cons c s ih =>
    intro l
    cases l with
    | nil => simp [startsWith]
    | cons d l' =>
      simp only [startsWith, Bool.and_eq_true, decide_eq_true_eq, ih, List.cons_append,
        List.cons.injEq]
      constructor
      · rintro ⟨rfl, t, rfl⟩; exact ⟨t, rfl, rfl⟩
      · rintro ⟨t, rfl, rfl⟩; exact ⟨rfl, t, rfl⟩

theorem containsSub_iff (s : Str) : ∀ l : Str,
    containsSub s l = true ↔ ∃ a b, l = a ++ (s ++ b) := by
  intro l
  induction l with
  | nil =>
    cases s with
    | nil => simp [containsSub, findSub]
    | cons c s' =>
      simp only [containsSub, findSub, List.isEmpty_cons, if_false, Option.isSome_none,
        Bool.false_eq_true, false_iff]
      rintro ⟨a, b, h⟩
      exact absurd h (by simp)
  | cons d l' ih =>
    simp only [containsSub, findSub] at *
    by_cases hs : startsWith s (d :: l') = true
    · rw [if_pos hs]
      simp only [Option.isSome_some, true_iff]
      obtain ⟨t, ht⟩ := (startsWith_iff s (d :: l')).1 hs
      exact ⟨[], t, by simpa using ht⟩
    · rw [if_neg hs]
      rw [Option.isSome_map', ih]
      constructor
      · rintro ⟨a, b, rfl⟩
        exact ⟨d :: a, b, rfl⟩
      · rintro ⟨a, b, h⟩
        cases a with
        | nil =>
          exact absurd ((startsWith_iff s (d :: l')).2 ⟨b, by simpa using h⟩) hs
        | cons a0 a' =>
          simp only [List.cons_append, List.cons.injEq] at h
          exact ⟨a', b, h.2⟩

theorem containsSub_append_middle (s a b : Str) : containsSub s (a ++ (s ++ b)) = true :=
  (containsSub_iff s _).2 ⟨a, b, rfl⟩

theorem splitOnCharAux_ne_nil (sep : Char) : ∀ (l acc : Str), splitOnCharAux sep l acc ≠ [] := by
  intro l
  induction l with
  | nil => intro acc; simp [splitOnCharAux]
  | cons c rest ih =>
    intro acc
    by_cases h : c = sep <;> simp [splitOnCharAux, h, ih]

theorem splitOnCharAux_eq_singleton (sep : Char) :
    ∀ (l acc x : Str), splitOnCharAux sep l acc = [x] → x = acc.reverse ++ l := by
  intro l
  induction l with
  | nil => intro acc x h; simp [splitOnCharAux] at h; simp [h]
  | cons c rest ih =>
    intro acc x h
    by_cases hc : c = sep
    · rw [splitOnCharAux, if_pos hc] at h
      simp only [List.cons.injEq] at h
      exact absurd h.2 (splitOnCharAux_ne_nil sep rest [])
    · rw [splitOnCharAux, if_neg hc] at h
      have := ih (c :: acc) x h
      simpa [List.append_assoc] using this

theorem splitOnChar_eq_singleton {sep : Char} {l x : Str}
    (h : splitOnChar sep l = [x]) : l = x := by
  have := splitOnCharAux_eq_singleton sep l [] x h
  simpa using this.symm

theorem splitOnCharAux_of_not_mem (sep : Char) :
    ∀ (l acc : Str), sep ∉ l → splitOnCharAux sep l acc = [acc.reverse ++ l] := by
  intro l
  induction l with
  | nil => intro acc _; simp [splitOnCharAux]
  | cons c rest ih =>
    intro acc h
    have hc : ¬c = sep := fun e => h (by simp [e])
    rw [splitOnCharAux, if_neg hc, ih (c :: acc) (fun hm => h (List.mem_cons_of_mem c hm))]
    simp [List.append_assoc]

theorem splitOnChar_of_not_mem {sep : Char} {l : Str} (h : sep ∉ l) :
    splitOnChar sep l = [l] := by
  simpa using splitOnCharAux_of_not_mem sep l [] h

/-! ### Helper lemmas about the selection parser -/

theorem mem_pySetAdd {acc : List Int} {x y : Int} :
    y ∈ pySetAdd acc x ↔ y ∈ acc ∨ y = x := by
  unfold pySetAdd
  by_cases h : x ∈ acc
  · rw [if_pos h]
    constructor
    · exact Or.inl
    · rintro (hy | rfl) <;> [exact hy; exact h]
  · rw [if_neg h]
    simp

theorem nodup_pySetAdd {acc : List Int} {x : Int} (h : acc.Nodup) :
    (pySetAdd acc x).Nodup := by
  unfold pySetAdd
  by_cases hx : x ∈ acc
  · rwa [if_pos hx]
  · rw [if_neg hx]
    simpa [List.nodup_append] using ⟨h, fun hmem => hx hmem⟩

theorem mem_pySetUpdate {xs : List Int} : ∀ {acc : List Int} {y : Int},
    y ∈ pySetUpdate acc xs ↔ y ∈ acc ∨ y ∈ xs := by
  induction xs with
  | nil => intro acc y; simp [pySetUpdate]
  | cons x xs ih =>
    intro acc y
    show y ∈ pySetUpdate (pySetAdd acc x) xs ↔ _
    rw [ih, mem_pySetAdd]
    simp only [List.mem_cons]
    tauto

theorem nodup_pySetUpdate {xs : List Int} : ∀ {acc : List Int}, acc.Nodup →
    (pySetUpdate acc xs).Nodup := by
  induction xs with
  | nil => intro acc h; simpa [pySetUpdate] using h
  | cons x xs ih =>
    intro acc h
    exact ih (nodup_pySetAdd h)


theorem mem_intRangeList {x si ei : Int} :
    x ∈ intRangeList si ei ↔ si ≤ x ∧ x ≤ ei := by
  unfold intRangeList
  rw [List.mem_map]
  constructor
  · rintro ⟨i, hi, rfl⟩
    rw [List.mem_range] at hi
    omega
  · rintro ⟨h1, h2⟩
    refine ⟨(x - si).toNat, ?_, ?_⟩
    · rw [List.mem_range]
      omega
    · omega

theorem partIndices_ok_mem {part : Str} {N : Nat} {xs : List Int}
    (h : partIndices part N = .ok xs) : ∀ x ∈ xs, 1 ≤ x ∧ x ≤ (N : Int) := by
  unfold partIndices at h
  dsimp only at h
  split at h
  · split at h
    · split at h
      · exact absurd h (by simp)
      · split at h
        · exact absurd h (by simp)
        · split at h
          · exact absurd h (by simp)
          · next hb =>
            obtain rfl : intRangeList _ _ = xs := by simpa using h
            intro x hx
            have := mem_intRangeList.1 hx
            omega
    · exact absurd h (by simp)
  · split at h
    · exact absurd h (by simp)
    · split at h
      · exact absurd h (by simp)
      · next hb =>
        obtain rfl : _ = xs := by simpa using h
        intro x hx
        simp only [List.mem_singleton] at hx
        subst hx
        omega

theorem parseParts_ok_nodup {N : Nat} : ∀ {ps : List Str} {acc S : List Int},
    acc.Nodup → parseParts N ps acc = .ok S → S.Nodup := by
  intro ps
  induction ps with
  | nil =>
    intro acc S hn h
    obtain rfl : acc = S := by simpa [parseParts] using h
    exact hn
  | cons p ps ih =>
    intro acc S hn h
    rw [parseParts] at h
    rcases hp : partIndices p N with e | xs <;> rw [hp] at h
    · exact absurd h (by simp)
    · exact ih (nodup_pySetUpdate hn) h

theorem parseParts_ok_mem {N : Nat} : ∀ {ps : List Str} {acc S : List Int} {x : Int},
    parseParts N ps acc = .ok S →
    (x ∈ S ↔ x ∈ acc ∨ ∃ p ∈ ps, ∃ xs, partIndices p N = .ok xs ∧ x ∈ xs) := by
  intro ps
  induction ps with
  | nil =>
    intro acc S x h
    obtain rfl : acc = S := by simpa [parseParts] using h
    simp
  | cons p ps ih =>
    intro acc S x h
    rw [parseParts] at h
    rcases hp : partIndices p N with e | xs <;> rw [hp] at h
    · exact absurd h (by simp)
    · rw [ih h, mem_pySetUpdate]
      constructor
      · rintro ((ha | hx) | ⟨q, hq, ys, hys, hy⟩)
        · exact Or.inl ha
        · exact Or.inr ⟨p, List.mem_cons_self p ps, xs, hp, hx⟩
        · exact Or.inr ⟨q, List.mem_cons_of_mem p hq, ys, hys, hy⟩
      · rintro (ha | ⟨q, hq, ys, hys, hy⟩)
        · exact Or.inl (Or.inl ha)
        · rcases List.mem_cons.1 hq with rfl | hq'
          · rw [hp] at hys
            obtain rfl : xs = ys := by simpa using hys
            exact Or.inl (Or.inr hy)
          · exact Or.inr ⟨q, hq', ys, hys, hy⟩

theorem parseParts_ok_parts {N : Nat} : ∀ {ps : List Str} {acc S : List Int},
    parseParts N ps acc = .ok S → ∀ p ∈ ps, ∃ xs, partIndices p N = .ok xs := by
  intro ps
  induction ps with
  | nil => intro acc S _ p hp; exact absurd hp (List.not_mem_nil p)
  | cons q ps ih =>
    intro acc S h p hp
    rw [parseParts] at h
    rcases hq : partIndices q N with e | xs <;> rw [hq] at h
    · exact absurd h (by simp)
    · rcases List.mem_cons.1 hp with rfl | hp'
      · exact ⟨xs, hq⟩
      · exact ih h p hp'

theorem parseParts_ok_of_parts {N : Nat} : ∀ {ps : List Str},
    (∀ p ∈ ps, ∃ xs, partIndices p N = .ok xs) →
    ∀ acc : List Int, ∃ S, parseParts N ps acc = .ok S := by
  intro ps
  induction ps with
  | nil => intro _ acc; exact ⟨acc, rfl⟩
  | cons q ps ih =>
    intro hall acc
    obtain ⟨xs, hq⟩ := hall q (List.mem_cons_self q ps)
    obtain ⟨S, hS⟩ := ih (fun p hp => hall p (List.mem_cons_of_mem q hp)) (pySetUpdate acc xs)
    exact ⟨S, by rw [parseParts, hq]; exact hS⟩

theorem parseParts_error_of_mem {N : Nat} {e : SelErr} : ∀ {ps : List Str} {part : Str},
    part ∈ ps → partIndices part N = .error e →
    ∀ acc : List Int, ∃ e2, parseParts N ps acc = .error e2 := by
  intro ps
  induction ps with
  | nil => intro part hp; exact absurd hp (List.not_mem_nil part)
  | cons q ps ih =>
    intro part hp herr acc
    rcases hq : partIndices q N with e' | xs
    · exact ⟨e', by rw [parseParts, hq]⟩
    · rcases List.mem_cons.1 hp with rfl | hp'
      · rw [hq] at herr
        exact absurd herr (by simp)
      · obtain ⟨e2, h2⟩ := ih hp' herr (pySetUpdate acc xs)
        exact ⟨e2, by rw [parseParts, hq]; exact h2⟩

/-- C1: for every total item count and every selection expression on which
`parse_video_selection` succeeds, the returned list is sorted strictly
ascending (hence duplicate-free) with every element in `[1, N]`, and
permuting the comma-separated terms of the expression yields the same
result list. -/
theorem C1_parse_selection_sorted_bounds_perm (s₁ s₂ : String) (N : Nat) (l : List Int)
    (h : parse_video_selection s₁ N = .ok l) :
    List.Sorted (· < ·) l ∧ l.Nodup ∧ (∀ x ∈ l, 1 ≤ x ∧ x ≤ (N : Int)) ∧
    (List.Perm (splitOnChar ',' (pyLower (pyStrip s₁.toList)))
        (splitOnChar ',' (pyLower (pyStrip s₂.toList))) →
      parse_video_selection s₂ N = .ok l) := by
  have key : ∀ (s : String) (l' : List Int), parse_video_selection s N = .ok l' →
      List.Sorted (· < ·) l' ∧ l'.Nodup ∧ (∀ x ∈ l', 1 ≤ x ∧ x ≤ (N : Int)) := by
    intro s l' h'
    unfold parse_video_selection at h'
    dsimp only at h'
    by_cases hall : pyLower (pyStrip s.toList) = "all".toList
    · rw [if_pos hall] at h'
      obtain rfl : _ = l' := by simpa using h'
      have hsorted : List.Sorted (· < ·)
          ((List.range N).map (fun i : Nat => (i : Int) + 1)) := by
        show List.Pairwise _ _
        rw [List.pairwise_map]
        exact (List.pairwise_lt_range N).imp (fun hab => by omega)
      refine ⟨hsorted, hsorted.nodup, ?_⟩
      intro x hx
      rw [List.mem_map] at hx
      obtain ⟨i, hi, rfl⟩ := hx
      rw [List.mem_range] at hi
      omega
    · rw [if_neg hall] at h'
      rcases hp : parseParts N (splitOnChar ',' (pyLower (pyStrip s.toList))) []
        with e | acc <;> rw [hp] at h'
      · exact absurd h' (by simp)
      · obtain rfl : _ = l' := by simpa using h'
        have hnd : acc.Nodup := parseParts_ok_nodup List.nodup_nil hp
        have hsorted := List.sorted_insertionSort (· ≤ ·) acc
        have hperm := List.perm_insertionSort (· ≤ ·) acc
        have hndl : (List.insertionSort (· ≤ ·) acc).Nodup := hperm.nodup_iff.2 hnd
        refine ⟨hsorted.lt_of_le hndl, hndl, ?_⟩
        intro x hx
        have hx' : x ∈ acc := hperm.mem_iff.1 hx
        rcases (parseParts_ok_mem hp).1 hx' with h0 | ⟨p, _, xs, hxs, hxmem⟩
        · exact absurd h0 (List.not_mem_nil x)
        · exact partIndices_ok_mem hxs x hxmem
  obtain ⟨k1, k2, k3⟩ := key s₁ l h
  refine ⟨k1, k2, k3, ?_⟩
  intro hperm12
  by_cases hall1 : pyLower (pyStrip s₁.toList) = "all".toList
  · have h1 : splitOnChar ',' (pyLower (pyStrip s₁.toList)) = ["all".toList] := by
      rw [hall1]; decide
    rw [h1] at hperm12
    have h2 : splitOnChar ',' (pyLower (pyStrip s₂.toList)) = ["all".toList] :=
      List.perm_singleton.1 hperm12.symm
    have hsel2 : pyLower (pyStrip s₂.toList) = "all".toList := splitOnChar_eq_singleton h2
    unfold parse_video_selection at h ⊢
    dsimp only at h ⊢
    rw [if_pos hall1] at h
    rw [if_pos hsel2]
    exact h
  · have hall2 : ¬pyLower (pyStrip s₂.toList) = "all".toList := by
      intro h2
      apply hall1
      have hs2 : splitOnChar ',' (pyLower (pyStrip s₂.toList)) = ["all".toList] := by
        rw [h2]; decide
      rw [hs2] at hperm12
      exact splitOnChar_eq_singleton (List.perm_singleton.1 hperm12)
    unfold parse_video_selection at h ⊢
    dsimp only at h ⊢
    rw [if_neg hall1] at h
    rw [if_neg hall2]
    rcases hp1 : parseParts N (splitOnChar ',' (pyLower (pyStrip s₁.toList))) []
      with e | acc1 <;> rw [hp1] at h
    · exact absurd h (by simp)
    obtain rfl : List.insertionSort (· ≤ ·) acc1 = l := by simpa using h
    have hparts2 : ∀ p ∈ splitOnChar ',' (pyLower (pyStrip s₂.toList)),
        ∃ xs, partIndices p N = .ok xs := fun p hp =>
      parseParts_ok_parts hp1 p (hperm12.mem_iff.2 hp)
    obtain ⟨acc2, hp2⟩ := parseParts_ok_of_parts hparts2 []
    rw [hp2]
    have hnd1 : acc1.Nodup := parseParts_ok_nodup List.nodup_nil hp1
    have hnd2 : acc2.Nodup := parseParts_ok_nodup List.nodup_nil hp2
    have hmemiff : ∀ x, x ∈ acc1 ↔ x ∈ acc2 := by
      intro x
      rw [parseParts_ok_mem hp1, parseParts_ok_mem hp2]
      constructor
      · rintro (h0 | ⟨p, hpmem, rest⟩)
        · exact absurd h0 (List.not_mem_nil x)
        · exact Or.inr ⟨p, hperm12.mem_iff.1 hpmem, rest⟩
      · rintro (h0 | ⟨p, hpmem, rest⟩)
        · exact absurd h0 (List.not_mem_nil x)
        · exact Or.inr ⟨p, hperm12.mem_iff.2 hpmem, rest⟩
    have haccperm : List.Perm acc1 acc2 := (List.perm_ext_iff_of_nodup hnd1 hnd2).2 hmemiff
    have hsorteq : List.insertionSort (· ≤ ·) acc1 = List.insertionSort (· ≤ ·) acc2 :=
      List.eq_of_perm_of_sorted
        (((List.perm_insertionSort _ acc1).trans haccperm).trans
          (List.perm_insertionSort _ acc2).symm)
        (List.sorted_insertionSort _ acc1) (List.sorted_insertionSort _ acc2)
    dsimp only
    rw [hsorteq]

/-- Witness for C1 at the spec's own example: `"1-3,7,10-12"` with 12
items parses to `[1,2,3,7,10,11,12]`, and the reordered expression
`"7,1-3,10-12"` gives the same list. -/
theorem C1_parse_selection_witness :
    parse_video_selection "1-3,7,10-12" 12 = .ok [1, 2, 3, 7, 10, 11, 12] ∧
    List.Sorted (· < ·) ([1, 2, 3, 7, 10, 11, 12] : List Int) ∧
    parse_video_selection "7,1-3,10-12" 12 = .ok [1, 2, 3, 7, 10, 11, 12] := by
  have h := C1_parse_selection_sorted_bounds_perm "1-3,7,10-12" "7,1-3,10-12" 12
    [1, 2, 3, 7, 10, 11, 12] (by decide)
  exact ⟨by decide, h.1, h.2.2.2 (by decide)⟩

/-- C2: validation errors of the selection parser, per term.  A range
term with parseable bounds violating `start ≥ 1`, `end ≤ N`,
`start ≤ end` fails with the range-bounds `ValueError` naming the term
(cause `Invalid range`); a single parseable term out of `[1, N]` fails
with the `ValueError` whose cause names the offending value; a
non-numeric hyphen-free token fails with the `ValueError` whose cause is
the `int()` literal error naming the token; and an expression (other
than `"all"`) containing any failing term makes the whole parser fail. -/
theorem C2_parse_selection_error_classes (N : Nat) :
    (∀ part s e startIdx endIdx,
      splitOnChar '-' (pyStrip part) = [s, e] →
      pyInt (pyStrip s) = some startIdx →
      pyInt (pyStrip e) = some endIdx →
      (startIdx < 1 ∨ endIdx > (N : Int) ∨ startIdx > endIdx) →
      partIndices part N =
        .error (.invalidRangeFormat (pyStrip part) (.invalidRange (pyStrip part)))) ∧
    (∀ part idx,
      '-' ∉ pyStrip part →
      pyInt (pyStrip part) = some idx →
      (idx < 1 ∨ idx > (N : Int)) →
      partIndices part N =
        .error (.invalidNumber (pyStrip part) (.indexOutOfRange idx))) ∧
    (∀ part,
      '-' ∉ pyStrip part →
      pyInt (pyStrip part) = none →
      partIndices part N =
        .error (.invalidNumber (pyStrip part) (.intLiteral (pyStrip part)))) ∧
    (∀ (s : String) (part : Str) (e : SelErr),
      pyLower (pyStrip s.toList) ≠ "all".toList →
      part ∈ splitOnChar ',' (pyLower (pyStrip s.toList)) →
      partIndices part N = .error e →
      ∃ e2, parse_video_selection s N = .error e2) := by
  refine ⟨?_, ?_, ?_, ?_⟩
  · intro part s e startIdx endIdx hsp h1 h2 hb
    have hd : '-' ∈ pyStrip part := by
      by_contra hd
      have := splitOnChar_of_not_mem hd
      rw [hsp] at this
      exact absurd this (by simp)
    unfold partIndices
    dsimp only
    rw [if_pos hd, hsp]
    dsimp only
    rw [h1]
    dsimp only
    rw [h2]
    dsimp only
    rw [if_pos hb]
  · intro part idx hd h1 hb
    unfold partIndices
    dsimp only
    rw [if_neg hd, h1]
    dsimp only
    rw [if_pos hb]
  · intro part hd h1
    unfold partIndices
    dsimp only
    rw [if_neg hd, h1]
  · intro s part e hall hmem herr
    obtain ⟨e2, h2⟩ := parseParts_error_of_mem hmem herr []
    refine ⟨e2, ?_⟩
    unfold parse_video_selection
    dsimp only
    rw [if_neg hall, h2]

/-- Witness for C2 at the spec's own examples: `"5-2"` with 10 items is
an invalid range naming the term, `"0"` and `"6"` with 5 items are
out-of-range errors naming the value, `"x2"` is a non-numeric token, and
the whole parser fails on the expression `"1,5-2"`. -/
theorem C2_parse_selection_error_witness :
    partIndices "5-2".toList 10 =
      .error (.invalidRangeFormat "5-2".toList (.invalidRange "5-2".toList)) ∧
    partIndices "0".toList 5 =
      .error (.invalidNumber "0".toList (.indexOutOfRange 0)) ∧
    partIndices "6".toList 5 =
      .error (.invalidNumber "6".toList (.indexOutOfRange 6)) ∧
    partIndices "x2".toList 5 =
      .error (.invalidNumber "x2".toList (.intLiteral "x2".toList)) ∧
    ∃ e2, parse_video_selection "1,5-2" 10 = .error e2 := by
  obtain ⟨c1, c2, c3, c4⟩ := C2_parse_selection_error_classes 10
  obtain ⟨d1, d2, d3, d4⟩ := C2_parse_selection_error_classes 5
  refine ⟨?_, ?_, ?_, ?_, ?_⟩
  · exact c1 "5-2".toList "5".toList "2".toList 5 2 (by decide) (by decide) (by decide)
      (by decide)
  · exact d2 "0".toList 0 (by decide) (by decide) (by decide)
  · exact d2 "6".toList 6 (by decide) (by decide) (by decide)
  · exact d3 "x2".toList (by decide) (by decide)
  · exact c4 "1,5-2" "5-2".toList
      (.invalidRangeFormat "5-2".toList (.invalidRange "5-2".toList))
      (by decide) (by decide)
      (c1 "5-2".toList "5".toList "2".toList 5 2 (by decide) (by decide) (by decide)
        (by decide))

/-- C3: for every count `N ≥ 0` and every input that trims and lowercases
to the literal `"all"`, `parse_video_selection` succeeds, and its result
is exactly the ascending list `[1, 2, ..., N]` (characterised by being
strictly sorted with membership exactly `[1, N]`, of length `N`; empty
when `N = 0`). -/
theorem C3_parse_selection_all (s : String) (N : Nat)
    (h : pyLower (pyStrip s.toList) = "all".toList) :
    ∃ l, parse_video_selection s N = .ok l ∧ List.Sorted (· < ·) l ∧
      (∀ x : Int, x ∈ l ↔ 1 ≤ x ∧ x ≤ (N : Int)) ∧ l.length = N := by
  refine ⟨(List.range N).map (fun i : Nat => (i : Int) + 1), ?_, ?_, ?_, ?_⟩
  · unfold parse_video_selection
    dsimp only
    rw [if_pos h]
  · show List.Pairwise _ _
    rw [List.pairwise_map]
    exact (List.pairwise_lt_range N).imp (fun hab => by omega)
  · intro x
    rw [List.mem_map]
    constructor
    · rintro ⟨i, hi, rfl⟩
      rw [List.mem_range] at hi
      omega
    · rintro ⟨h1, h2⟩
      refine ⟨(x - 1).toNat, ?_, ?_⟩
      · rw [List.mem_range]; omega
      · omega
  · simp

/-- Witness for C3: `"ALL"` (case-insensitive, untrimmed `" ALL "`) with
3 items yields the full list `[1, 2, 3]`. -/
theorem C3_parse_selection_all_witness :
    ∃ l, parse_video_selection " ALL " 3 = .ok l ∧ List.Sorted (· < ·) l ∧
      (∀ x : Int, x ∈ l ↔ 1 ≤ x ∧ x ≤ (3 : Int)) ∧ l.length = 3 :=
  C3_parse_selection_all " ALL " 3 (by decide)

/-- C10: on the empty string and on every whitespace-only string,
`parse_video_selection` itself raises the invalid-number `ValueError`
(for every total count), rather than returning a list: the empty-input
question of §9 is resolved inside the parser. -/
theorem C10_parse_selection_empty_raises (s : String) (N : Nat)
    (h : pyStrip s.toList = []) :
    parse_video_selection s N = .error (.invalidNumber [] (.intLiteral [])) := by
  have hpart : partIndices [] N = .error (.invalidNumber [] (.intLiteral [])) := by
    unfold partIndices
    dsimp only
    rw [if_neg (by decide : ¬('-' ∈ pyStrip ([] : Str)))]
    rw [show pyInt (pyStrip ([] : Str)) = none from by decide]
    dsimp only
    decide
  unfold parse_video_selection
  dsimp only
  rw [h]
  rw [if_neg (by decide : ¬pyLower ([] : Str) = "all".toList)]
  rw [show splitOnChar ',' (pyLower ([] : Str)) = [([] : Str)] from by decide]
  rw [parseParts, hpart]

/-- Witness for C10: the empty string and a whitespace-only string both
raise, for two different counts. -/
theorem C10_parse_selection_empty_witness :
    parse_video_selection "" 5 = .error (.invalidNumber [] (.intLiteral [])) ∧
    parse_video_selection "  " 0 = .error (.invalidNumber [] (.intLiteral [])) :=
  ⟨C10_parse_selection_empty_raises "" 5 (by decide),
   C10_parse_selection_empty_raises "  " 0 (by decide)⟩

theorem formatFromHeight_decomp (h : Str) :
    formatFromHeight h =
      ("bestvideo[height<=".toList ++ (h ++ "][ext=mp4]+bestaudio[ext=m4a]".toList)) ++ '/' ::
        (("bestvideo[height<=".toList ++ (h ++ "]+bestaudio".toList)) ++ '/' ::
          (("best[height<=".toList ++ (h ++ "][ext=mp4]".toList)) ++ '/' ::
            (("best[height<=".toList ++ (h ++ "]".toList)) ++ '/' :: "best".toList))) := by
  unfold formatFromHeight
  rw [show "][ext=mp4]+bestaudio[ext=m4a]/".toList
        = "][ext=mp4]+bestaudio[ext=m4a]".toList ++ ['/'] from by decide,
    show "]+bestaudio/".toList = "]+bestaudio".toList ++ ['/'] from by decide,
    show "][ext=mp4]/".toList = "][ext=mp4]".toList ++ ['/'] from by decide,
    show "]/".toList = "]".toList ++ ['/'] from by decide]
  simp [List.append_assoc]

theorem tier_bound_contains (h A B : Str) :
    containsSub ("height<=".toList ++ (h ++ [']']))
      (A ++ ("height<=".toList ++ (h ++ (']' :: B)))) = true := by
  have := containsSub_append_middle ("height<=".toList ++ (h ++ [']'])) A B
  simpa [List.append_assoc] using this

/-- C4: `build_format_string` on the compound label `"1080p (FHD)"` and
on the bare numeral `"1080"` produce identical output; and whenever a
numeral `h` is extracted from the quality input, the output consists of
exactly four fallback tiers each bounded by `height<=h` (and free of the
tier separator), followed by one unconditional `"best"` tier. -/
theorem C4_format_string_tiers :
    build_format_string ("1080p (FHD)".toList) = build_format_string ("1080".toList) ∧
    ∀ (q h : Str), extract_height q = some h → (∀ c ∈ h, c.isDigit = true) →
      ∃ t1 t2 t3 t4 : Str,
        build_format_string q =
          some (t1 ++ '/' :: (t2 ++ '/' :: (t3 ++ '/' :: (t4 ++ '/' :: "best".toList)))) ∧
        (∀ t ∈ [t1, t2, t3, t4],
          containsSub ("height<=".toList ++ (h ++ [']'])) t = true ∧ '/' ∉ t) ∧
        '/' ∉ "best".toList := by
  constructor
  · decide
  · intro q h hq hdig
    have hslash : '/' ∉ h := fun hc => by simpa using hdig '/' hc
    refine ⟨"bestvideo[height<=".toList ++ (h ++ "][ext=mp4]+bestaudio[ext=m4a]".toList),
        "bestvideo[height<=".toList ++ (h ++ "]+bestaudio".toList),
        "best[height<=".toList ++ (h ++ "][ext=mp4]".toList),
        "best[height<=".toList ++ (h ++ "]".toList), ?_, ?_, by decide⟩
    · simp only [build_format_string, hq, Option.map_some']
      rw [formatFromHeight_decomp]
    · intro t ht
      rcases List.mem_cons.1 ht with rfl | ht
      · constructor
        · rw [show "bestvideo[height<=".toList
              = "bestvideo[".toList ++ "height<=".toList from by decide,
            show "][ext=mp4]+bestaudio[ext=m4a]".toList
              = ']' :: "[ext=mp4]+bestaudio[ext=m4a]".toList from by decide]
          rw [List.append_assoc]
          exact tier_bound_contains h "bestvideo[".toList "[ext=mp4]+bestaudio[ext=m4a]".toList
        · intro hc
          rcases List.mem_append.1 hc with hc | hc
          · exact absurd hc (by decide)
          rcases List.mem_append.1 hc with hc | hc
          · exact hslash hc
          · exact absurd hc (by decide)
      rcases List.mem_cons.1 ht with rfl | ht
      · constructor
        · rw [show "bestvideo[height<=".toList
              = "bestvideo[".toList ++ "height<=".toList from by decide,
            show "]+bestaudio".toList = ']' :: "+bestaudio".toList from by decide]
          rw [List.append_assoc]
          exact tier_bound_contains h "bestvideo[".toList "+bestaudio".toList
        · intro hc
          rcases List.mem_append.1 hc with hc | hc
          · exact absurd hc (by decide)
          rcases List.mem_append.1 hc with hc | hc
          · exact hslash hc
          · exact absurd hc (by decide)
      rcases List.mem_cons.1 ht with rfl | ht
      · constructor
        · rw [show "best[height<=".toList = "best[".toList ++ "height<=".toList from by decide,
            show "][ext=mp4]".toList = ']' :: "[ext=mp4]".toList from by decide]
          rw [List.append_assoc]
          exact tier_bound_contains h "best[".toList "[ext=mp4]".toList
        · intro hc
          rcases List.mem_append.1 hc with hc | hc
          · exact absurd hc (by decide)
          rcases List.mem_append.1 hc with hc | hc
          · exact hslash hc
          · exact absurd hc (by decide)
      rcases List.mem_cons.1 ht with rfl | ht
      · constructor
        · rw [show "best[height<=".toList = "best[".toList ++ "height<=".toList from by decide,
            show "]".toList = ']' :: ([] : Str) from by decide]
          rw [List.append_assoc]
          exact tier_bound_contains h "best[".toList []
        · intro hc
          rcases List.mem_append.1 hc with hc | hc
          · exact absurd hc (by decide)
          rcases List.mem_append.1 hc with hc | hc
          · exact hslash hc
          · exact absurd hc (by decide)
      · exact absurd ht (List.not_mem_nil t)

/-- Witness for C4: the tier decomposition at the extracted numeral
`"1080"`. -/
theorem C4_format_string_witness :
    ∃ t1 t2 t3 t4 : Str,
      build_format_string ("1080".toList) =
        some (t1 ++ '/' :: (t2 ++ '/' :: (t3 ++ '/' :: (t4 ++ '/' :: "best".toList)))) ∧
      (∀ t ∈ [t1, t2, t3, t4],
        containsSub ("height<=".toList ++ ("1080".toList ++ [']'])) t = true ∧ '/' ∉ t) ∧
      '/' ∉ "best".toList :=
  C4_format_string_tiers.2 ("1080".toList) ("1080".toList) (by decide) (by decide)

/-- C5: every line containing the destination-file announcement makes
the playlist progress scanner set the display name to the announced
file's base name — truncated to 40 characters ending in an ellipsis when
the base name is longer, unchanged otherwise — and reset the percentage
to 0. -/
theorem C5_destination_line_name_truncation (line : Str) (st : PlScanState)
    (h : containsSub destMarker line = true) :
    (plStep line st).percent = 0 ∧
    (plStep line st).currentFile.length ≤ 40 ∧
    ((pathName (announcedFile line)).length ≤ 40 →
      (plStep line st).currentFile = pathName (announcedFile line)) ∧
    ((pathName (announcedFile line)).length > 40 →
      (plStep line st).currentFile
          = (pathName (announcedFile line)).take 37 ++ "...".toList ∧
        (plStep line st).currentFile.length = 40 ∧
        takeLast 3 (plStep line st).currentFile = "...".toList) := by
  have hstep : plStep line st =
      { currentFile :=
          if (pathName (announcedFile line)).length > 40 then
            (pathName (announcedFile line)).take 37 ++ "...".toList
          else pathName (announcedFile line),
        percent := 0 } := by
    unfold plStep
    rw [if_pos h]
  rw [hstep]
  refine ⟨rfl, ?_, ?_, ?_⟩
  · dsimp only
    by_cases hlen : (pathName (announcedFile line)).length > 40
    · rw [if_pos hlen, List.length_append, List.length_take]
      have : "...".toList.length = 3 := by decide
      omega
    · rw [if_neg hlen]
      omega
  · intro hle
    dsimp only
    rw [if_neg (by omega)]
  · intro hgt
    dsimp only
    rw [if_pos hgt]
    have h3 : "...".toList.length = 3 := by decide
    have h37 : (List.take 37 (pathName (announcedFile line))).length = 37 := by
      rw [List.length_take]
      omega
    refine ⟨rfl, ?_, ?_⟩
    · rw [List.length_append, List.length_take, h3]
      omega
    · unfold takeLast
      rw [List.length_append, h3, h37]
      rw [show 37 + 3 - 3 = (List.take 37 (pathName (announcedFile line))).length from by
        rw [h37]]
      exact List.drop_left _ _

/-- Witness for C5: a concrete destination line sets the short base name
unchanged with percentage 0, and a long base name is truncated to 40
characters ending in an ellipsis. -/
theorem C5_destination_line_witness :
    (plStep ("[download] Destination: /a/b/My Video.mp4".toList) ⟨[], 50⟩).percent = 0 ∧
    (plStep ("[download] Destination: /a/b/My Video.mp4".toList) ⟨[], 50⟩).currentFile
      = "My Video.mp4".toList ∧
    (plStep ("[download] Destination: a_very_long_file_name_that_keeps_going_on_and_on.mp4".toList)
        ⟨[], 50⟩).currentFile
      = "a_very_long_file_name_that_keeps_goin...".toList := by
  have h1 := C5_destination_line_name_truncation
    ("[download] Destination: /a/b/My Video.mp4".toList) ⟨[], 50⟩ (by decide)
  have h2 := C5_destination_line_name_truncation
    ("[download] Destination: a_very_long_file_name_that_keeps_going_on_and_on.mp4".toList)
    ⟨[], 50⟩ (by decide)
  refine ⟨h1.1, ?_, ?_⟩
  · rw [h1.2.2.1 (by decide)]
    decide
  · rw [(h2.2.2.2 (by decide)).1]
    decide

/-- Counterexample to C6 as stated: in the playlist scanner the
destination rule is checked first, so a line containing the
destination announcement together with the download marker and a percent
sign — whose percent token `"a"` does not parse — resets the percentage
to 0 instead of retaining the previous value 50. -/
theorem C6_percent_token_counterexample :
    containsSub dlMarker ("[download] Destination: a%b".toList) = true ∧
    containsSub ['%'] ("[download] Destination: a%b".toList) = true ∧
    percentToken ("[download] Destination: a%b".toList) = some ("a".toList) ∧
    pyFloat ("a".toList) = none ∧
    (plStep ("[download] Destination: a%b".toList) ⟨[], 50⟩).percent = 0 ∧
    (0 : ℚ) ≠ 50 := by
  refine ⟨by decide, by decide, by decide, by decide, by decide, by decide⟩

/-- C6 (amended): for every line containing the download-progress marker
and a percent sign, fed to the single-video scanner — or to the playlist
scanner provided the line does not also contain the destination
announcement — the percentage is updated to the parsed value of the last
whitespace-delimited field before the percent sign, and when that field
is missing or does not parse as a float no error is raised and the
previous percentage is retained. -/
theorem C6_percent_token_amended :
    (∀ (line : Str) (st : SvScanState),
      containsSub dlMarker line = true → containsSub ['%'] line = true →
      (∀ tok v, percentToken line = some tok → pyFloat tok = some v →
        (svStep st line).percent = v) ∧
      (∀ tok, percentToken line = some tok → pyFloat tok = none →
        (svStep st line).percent = st.percent) ∧
      (percentToken line = none → (svStep st line).percent = st.percent)) ∧
    (∀ (line : Str) (st : PlScanState),
      containsSub destMarker line = false →
      containsSub dlMarker line = true → containsSub ['%'] line = true →
      (∀ tok v, percentToken line = some tok → pyFloat tok = some v →
        (plStep line st).percent = v) ∧
      (∀ tok, percentToken line = some tok → pyFloat tok = none →
        (plStep line st).percent = st.percent) ∧
      (percentToken line = none → (plStep line st).percent = st.percent)) := by
  constructor
  · intro line st hdl hpc
    have hguard : (containsSub dlMarker line && containsSub ['%'] line) = true := by
      rw [hdl, hpc]
      rfl
    unfold svStep
    dsimp only
    rw [if_pos hguard]
    refine ⟨?_, ?_, ?_⟩
    · intro tok v htok hv
      rw [htok]
      dsimp only
      rw [hv]
    · intro tok htok hv
      rw [htok]
      dsimp only
      rw [hv]
    · intro htok
      rw [htok]
  · intro line st hdest hdl hpc
    have hguard : (containsSub dlMarker line && containsSub ['%'] line) = true := by
      rw [hdl, hpc]
      rfl
    unfold plStep
    rw [if_neg (by simp [hdest]), if_pos hguard]
    refine ⟨?_, ?_, ?_⟩
    · intro tok v htok hv
      rw [htok]
      dsimp only
      rw [hv]
    · intro tok htok hv
      rw [htok]
      dsimp only
      rw [hv]
    · intro htok
      rw [htok]

/-- Witness for C6 (amended): a concrete progress line ending in `57.3%`
sets the percentage to 57.3, and an unparseable token retains the
previous value 7. -/
theorem C6_percent_token_witness :
    (svStep ⟨[], 0⟩ ("[download]  57.3% of 10MiB".toList)).percent = pyMantissa 57 3 1 ∧
    (svStep ⟨[], 7⟩ ("[download]  oops% of".toList)).percent = (7 : ℚ) ∧
    (plStep ("[download]  57.3% of 10MiB".toList) ⟨[], 0⟩).percent = pyMantissa 57 3 1 := by
  have h1 := C6_percent_token_amended.1 ("[download]  57.3% of 10MiB".toList) ⟨[], 0⟩
    (by decide) (by decide)
  have h2 := C6_percent_token_amended.1 ("[download]  oops% of".toList) ⟨[], 7⟩
    (by decide) (by decide)
  have h3 := C6_percent_token_amended.2 ("[download]  57.3% of 10MiB".toList) ⟨[], 0⟩
    (by decide) (by decide) (by decide)
  exact ⟨h1.1 ("57.3".toList) (pyMantissa 57 3 1) (by decide) rfl,
    h2.2.1 ("oops".toList) (by decide) (by decide),
    h3.1 ("57.3".toList) (pyMantissa 57 3 1) (by decide) rfl⟩

/-- Counterexample to C7 as stated: the single-video scanner has no
completion rule at all — a line stating the file has already been
downloaded (with no percent sign) leaves the percentage at 50 instead of
forcing 100; and in the playlist scanner the percent-parsing rule runs
first, so a progress line that also carries `"100%"` gets the parsed
token value 50, not 100. -/
theorem C7_completion_counterexample :
    containsSub alreadyMarker ("video.mp4 has already been downloaded".toList) = true ∧
    (svStep ⟨[], 50⟩ ("video.mp4 has already been downloaded".toList)).percent = 50 ∧
    (50 : ℚ) ≠ 100 ∧
    containsSub ("100%".toList) ("[download] 50% of 100%".toList) = true ∧
    (plStep ("[download] 50% of 100%".toList) ⟨[], 0⟩).percent = ((50 : Nat) : ℚ) ∧
    ((50 : Nat) : ℚ) ≠ 100 := by
  refine ⟨by decide, by decide, by decide, by decide, rfl, by norm_num⟩

/-- C7 (amended): in the playlist scanner, every line that indicates the
item was already fully fetched or carries an explicit `"100%"` marker,
and that is captured neither by the destination rule nor by the
percent-parsing rule, forces the percentage to 100; the single-video
scanner has no such rule. -/
theorem C7_completion_amended (line : Str) (st : PlScanState)
    (h1 : containsSub alreadyMarker line = true ∨ containsSub ("100%".toList) line = true)
    (h2 : containsSub destMarker line = false)
    (h3 : (containsSub dlMarker line && containsSub ['%'] line) = false) :
    (plStep line st).percent = 100 := by
  have hcond : (containsSub alreadyMarker line || containsSub ("100%".toList) line) = true := by
    rcases h1 with h | h
    · rw [h, Bool.true_or]
    · rw [h, Bool.or_true]
  unfold plStep
  rw [if_neg (by simp [h2]), if_neg (by simp [h3]), if_pos hcond]

/-- Witness for C7 (amended): an already-downloaded line (which carries
the download marker but no percent sign) and a bare `"100%"` line both
force the playlist percentage to 100. -/
theorem C7_completion_witness :
    (plStep ("[download] video.mp4 has already been downloaded".toList) ⟨[], 0⟩).percent
      = 100 ∧
    (plStep ("merging at 100% complete".toList) ⟨[], 7⟩).percent = 100 :=
  ⟨C7_completion_amended _ _ (Or.inl (by decide)) (by decide) (by decide),
   C7_completion_amended _ _ (Or.inr (by decide)) (by decide) (by decide)⟩

theorem containsSub_error_upper {l : Str}
    (h : containsSub ("error".toList) l = true) :
    containsSub ("ERROR".toList) (pyUpper l) = true := by
  obtain ⟨a, b, rfl⟩ := (containsSub_iff _ _).1 h
  refine (containsSub_iff _ _).2 ⟨pyUpper a, pyUpper b, ?_⟩
  unfold pyUpper
  rw [List.map_append, List.map_append,
    show List.map Char.toUpper ("error".toList) = "ERROR".toList from by decide]

/-- Counterexample to C8 as stated: on a failing playlist download the
displayed diagnostics are a single exit-code message that ignores the
output stream entirely, even when the stream contained a retained
`ERROR` line that the single-video selection logic would have chosen. -/
theorem C8_error_lines_counterexample :
    selectErrorLines ["ERROR: boom".toList] = ["ERROR: boom".toList] ∧
    playlistFailureDisplay ["ERROR: boom".toList] 1 ≠ ["ERROR: boom".toList] := by
  refine ⟨by decide, by decide⟩

/-- C8 (amended): the error-line selection — lines containing `"error"`
case-insensitively, falling back to the last ten retained lines when
none match — applies to single-video downloads only, over the stream
retained verbatim by the single-video loop; failing playlist downloads
display only the exit-code message, independent of the output. -/
theorem C8_error_lines_amended :
    (∀ allOutput : List Str, selectErrorLines allOutput = specErrorLines allOutput) ∧
    (∀ lines : List Str, (svRun lines).allOutput = lines) ∧
    (∀ (allOutput : List Str) (code : Int),
      playlistFailureDisplay allOutput code
        = [("Download failed with code " ++ toString code).toList]) := by
  refine ⟨?_, ?_, fun _ _ => rfl⟩
  · intro out
    unfold selectErrorLines specErrorLines
    have hpred : ∀ l ∈ out,
        (containsSub ("ERROR".toList) (pyUpper l) || containsSub ("error".toList) l)
          = containsSub ("ERROR".toList) (pyUpper l) := by
      intro l _
      cases he : containsSub ("error".toList) l
      · rw [Bool.or_false]
      · rw [containsSub_error_upper he, Bool.true_or]
    rw [List.filter_congr hpred]
  · intro lines
    have key : ∀ (st : SvScanState), (lines.foldl svStep st).allOutput
        = st.allOutput ++ lines := by
      induction lines with
      | nil => intro st; simp
      | cons x xs ih =>
        intro st
        rw [List.foldl_cons]
        rw [ih]
        have hx : (svStep st x).allOutput = st.allOutput ++ [x] := by
          unfold svStep
          dsimp only
          split
          · split
            · rfl
            · split <;> rfl
          · rfl
        rw [hx]
        simp
    unfold svRun
    rw [key]
    rfl

/-! ### `ytdl_cli/state.py`: dictionary lemmas -/

theorem find?_map_dictSet {k : String} {v : JVal} : ∀ m : List (String × JVal),
    m.any (fun kv => kv.1 = k) = true →
    (m.map (fun kv => if kv.1 = k then (k, v) else kv)).find?
        (fun kv => kv.1 = k) = some (k, v) := by
  intro m
  induction m with
  | nil => intro h; simp at h
  | cons p m ih =>
    intro h
    rw [List.map_cons]
    by_cases hp : p.1 = k
    · rw [if_pos hp]
      rw [List.find?_cons_of_pos _ (by simp)]
    · rw [if_neg hp]
      rw [List.find?_cons_of_neg _ (by simp [hp])]
      refine ih ?_
      rw [List.any_cons] at h
      simpa [hp] using h

theorem dictGet_dictSet (m : List (String × JVal)) (k : String) (v dflt : JVal) :
    dictGet (dictSet k v m) k dflt = v := by
  unfold dictGet dictSet
  by_cases hany : m.any (fun kv => kv.1 = k) = true
  · rw [if_pos hany, find?_map_dictSet m hany]
  · rw [if_neg hany, List.find?_append]
    have hnone : m.find? (fun kv => decide (kv.1 = k)) = none := by
      rw [List.find?_eq_none]
      intro x hx
      simp only [decide_eq_true_eq]
      intro hk
      exact hany (List.any_eq_true.2 ⟨x, hx, by simp [hk]⟩)
    rw [hnone, Option.none_or]
    rw [List.find?_cons_of_pos _ (by simp)]

/-- C9: after `set_last_quality(q)` a fresh `get_last_quality()` read
returns exactly `q`; and when the backing document is missing or not
valid JSON, `get_last_quality()` returns the hard-coded default `"720"`
and `get_download_dir()` the default directory, without raising (the
model is total: read errors collapse to the empty document). -/
theorem C9_config_roundtrip_and_defaults (d : Doc) (q home : String) :
    get_last_quality (set_last_quality d q) = .str q ∧
    get_last_quality .missing = .str "720" ∧
    get_last_quality .corrupt = .str "720" ∧
    get_download_dir home .missing = .str (defaultDownloadDir home) ∧
    get_download_dir home .corrupt = .str (defaultDownloadDir home) := by
  refine ⟨?_, rfl, rfl, rfl, rfl⟩
  unfold get_last_quality set_last_quality
  rw [show read_config (.valid (dictSet "last_quality" (.str q) (read_config d)))
      = dictSet "last_quality" (.str q) (read_config d) from rfl]
  exact dictGet_dictSet _ _ _ _
